import Mathlib

/-!
Verification of the timesheet logger (`log-timesheet.py`).

The script reads timesheet rows from a CSV file, validates each field
(ticket id, hours, date, configuration domain), and submits one worklog
entry per row to a REST API.  This file gives a shallow embedding of the
validation functions (`validate_domain`, `validate_ticket_format`,
`validate_hours`), the submission function (`log_worklog`) and the main
row-processing loop, and proves the claims about them.

Strings are modelled as `List Char`.  Python `float` values are modelled
exactly: a parsed decimal literal becomes the rational it denotes, kept as
an unnormalized pair `numerator / (power-of-ten denominator)` so that
every comparison is kernel-computable integer arithmetic (rounding to
binary double precision is not modelled; it is irrelevant to the bound
checks `<= 0` / `> 24`, which compare the parsed value exactly).  The
special values `nan`, `inf`, `-inf` that Python's `float()` constructor
also accepts are separate constructors with Python's comparison semantics
(every comparison with `nan` is false).
-/

/-- Shorthand: the character list of a string literal. -/
def toL (s : String) : List Char := s.toList

/-- The whitespace characters stripped by Python's `str.strip()` /
`float()` (ASCII whitespace; exotic unicode spaces are not modelled). -/
def pyIsSpace (c : Char) : Bool :=
  c = ' ' || c = '\t' || c = '\n' || c = '\r' || c = '\x0b' || c = '\x0c'

/-- Python `str.strip()`: drop whitespace from both ends. -/
def pyStrip (l : List Char) : List Char :=
  ((l.dropWhile pyIsSpace).reverse.dropWhile pyIsSpace).reverse

/-- Python `str.upper()` (ASCII letters). -/
def pyUpper (l : List Char) : List Char := l.map Char.toUpper

/-- Python `str.lower()` (ASCII letters). -/
def pyLower (l : List Char) : List Char := l.map Char.toLower

/-- Digit character to its value. -/
def digitVal (c : Char) : ℕ := c.toNat - 48

/-- Value of a digit string (most significant first). -/
def digitsVal (l : List Char) : ℕ := l.foldl (fun a c => a * 10 + digitVal c) 0

/-- Decimal digits of a natural number, most significant first
(fuel-indexed so that the kernel can reduce it; fuel `n + 1` always
suffices because the argument strictly shrinks). -/
def natCharsF : ℕ → ℕ → List Char
  | 0, _ => []
  | fuel + 1, n =>
    if n < 10 then [Char.ofNat (48 + n)]
    else natCharsF fuel (n / 10) ++ [Char.ofNat (48 + n % 10)]

/-- Decimal digits of a natural number, most significant first. -/
def natChars (n : ℕ) : List Char := natCharsF (n + 1) n

/-- A Python `float` value as produced by `float(str)`: either a finite
value `num / den` (with `den` a positive power of ten, not normalized), or
one of the specials. -/
inductive PyFloat where
  | nan : PyFloat
  | inf : PyFloat
  | ninf : PyFloat
  | fin : ℤ → ℕ → PyFloat
deriving DecidableEq, Repr

/-- Python `<` on floats (denominators are positive by construction, so
cross-multiplication decides the order); comparisons involving `nan` are
all false. -/
def pyLt : PyFloat → PyFloat → Bool
  | .nan, _ => false
  | _, .nan => false
  | .ninf, .ninf => false
  | .ninf, _ => true
  | _, .ninf => false
  | .inf, _ => false
  | .fin _ _, .inf => true
  | .fin n₁ d₁, .fin n₂ d₂ => n₁ * d₂ < n₂ * d₁

/-- Python `<=` on floats; comparisons involving `nan` are all false. -/
def pyLe : PyFloat → PyFloat → Bool
  | .nan, _ => false
  | _, .nan => false
  | .ninf, _ => true
  | _, .ninf => false
  | _, .inf => true
  | .inf, _ => false
  | .fin n₁ d₁, .fin n₂ d₂ => n₁ * d₂ ≤ n₂ * d₁

/-- Python `== 0` on a float. -/
def pyEqZero : PyFloat → Bool
  | .fin n _ => n = 0
  | _ => false

/-- Check PEP 515 underscore placement: every `_` must sit directly
between two digits.  `prev` is the preceding character, if any. -/
def underscoresOk : Option Char → List Char → Bool
  | _, [] => true
  | prev, c :: rest =>
    if c = '_' then
      match prev, rest with
      | some p, n :: _ => p.isDigit && n.isDigit && underscoresOk (some c) rest
      | _, _ => false
    else underscoresOk (some c) rest

/-- Split a char list at the first `e`/`E` (exponent marker). -/
def splitExpMark : List Char → List Char × Option (List Char)
  | [] => ([], none)
  | c :: rest =>
    if c = 'e' || c = 'E' then ([], some rest)
    else
      match splitExpMark rest with
      | (a, b) => (c :: a, b)

/-- Split a char list at the first `.`. -/
def splitDot : List Char → List Char × Option (List Char)
  | [] => ([], none)
  | c :: rest =>
    if c = '.' then ([], some rest)
    else
      match splitDot rest with
      | (a, b) => (c :: a, b)

/-- Strip one leading `+`/`-` sign, returning the sign (`true` = negative)
and the remainder. -/
def takeSign : List Char → Bool × List Char
  | '+' :: rest => (false, rest)
  | '-' :: rest => (true, rest)
  | l => (false, l)

/-- Parse the mantissa+exponent part of a float literal (sign and
underscores already handled, keywords excluded).  Grammar:
`digits [. digits] [(e|E) [sign] digits]` with at least one mantissa
digit.  Returns the exact value as an unnormalized `num / den` pair with
`den` a power of ten. -/
def parseDecimal (l : List Char) : Option (ℤ × ℕ) :=
  match splitExpMark l with
  | (mant, expPart) =>
    match splitDot mant with
    | (ip, fpOpt) =>
      let fp := fpOpt.getD []
      if ip.all Char.isDigit && fp.all Char.isDigit && (ip ≠ [] || fp ≠ []) then
        let n : ℤ := (digitsVal (ip ++ fp) : ℤ)
        let d : ℕ := 10 ^ fp.length
        match expPart with
        | none => some (n, d)
        | some ex =>
          match takeSign ex with
          | (eneg, ed) =>
            if ed ≠ [] && ed.all Char.isDigit then
              if eneg then some (n, d * 10 ^ digitsVal ed)
              else some (n * 10 ^ digitsVal ed, d)
            else none
      else none

/-- Model of Python's `float(str)` constructor: strip whitespace, take an
optional sign, accept `inf` / `infinity` / `nan` case-insensitively, else
parse a decimal literal (with PEP 515 underscores).  `none` models the
`ValueError` raised on unparsable input. -/
def pyParseFloat (l : List Char) : Option PyFloat :=
  let t := pyStrip l
  match takeSign t with
  | (neg, body) =>
    let low := pyLower body
    if low = toL "inf" || low = toL "infinity" then
      some (if neg then PyFloat.ninf else PyFloat.inf)
    else if low = toL "nan" then
      some PyFloat.nan
    else
      if underscoresOk none body then
        match parseDecimal (body.filter (fun c => c ≠ '_')) with
        | some (n, d) => some (.fin (if neg then -n else n) d)
        | none => none
      else none

/-- The error cases of `validate_hours` (raised as `ValueError` in the
source, distinguished by message). -/
inductive HoursError where
  | notANumber : HoursError
  | nonPositive : HoursError
  | tooLarge : HoursError
deriving DecidableEq, Repr

deriving instance DecidableEq for Except

/-- `validate_hours`: convert the string to a float; error if unparsable,
if the value is `<= 0`, or if it is `> 24`; otherwise return the value. -/
def validate_hours (s : List Char) : Except HoursError PyFloat :=
  match pyParseFloat s with
  | none => .error .notANumber
  | some h =>
    if pyLe h (.fin 0 1) then .error .nonPositive
    else if pyLt (.fin 24 1) h then .error .tooLarge
    else .ok h

/-! ## Domain validation (`validate_domain`) -/

/-- The pattern `https://` as a char list. -/
def httpsPat : List Char := ['h', 't', 't', 'p', 's', ':', '/', '/']

/-- The pattern `http://` as a char list. -/
def httpPat : List Char := ['h', 't', 't', 'p', ':', '/', '/']

/-- Python `str.replace(pat, '')`: remove every (non-overlapping,
left-to-right) occurrence of `pat` anywhere in the string.  Fuel-indexed
recursion; the fuel is always instantiated with the string's length, which
suffices. -/
def stripPatF (pat : List Char) : ℕ → List Char → List Char
  | 0, l => l
  | _ + 1, [] => []
  | fuel + 1, c :: rest =>
    if pat.isPrefixOf (c :: rest) then
      stripPatF pat fuel ((c :: rest).drop pat.length)
    else
      c :: stripPatF pat fuel rest

/-- `domain.replace('https://', '')`. -/
def stripHttps (l : List Char) : List Char := stripPatF httpsPat l.length l

/-- `domain.replace('http://', '')`. -/
def stripHttp (l : List Char) : List Char := stripPatF httpPat l.length l

/-- Does `pat` occur as a contiguous subsequence of `l`? -/
def containsSeq (pat : List Char) : List Char → Bool
  | [] => pat.isPrefixOf []
  | c :: rest => pat.isPrefixOf (c :: rest) || containsSeq pat rest

/-- Python `str.rstrip('/')`: remove every trailing `/`. -/
def rstripSlash (l : List Char) : List Char :=
  (l.reverse.dropWhile (fun c => c = '/')).reverse

/-- Characters allowed by the class `[a-zA-Z0-9.-]`. -/
def isDomainChar (c : Char) : Bool :=
  c.isAlpha || c.isDigit || c = '.' || c = '-'

/-- One regex-match attempt of `^[a-zA-Z0-9.-]+\.[a-zA-Z]{2,}$` that puts
the final `.` at position `i` of `l`. -/
def domainSplitAt (l : List Char) (i : ℕ) : Bool :=
  let a := l.take i
  !a.isEmpty && a.all isDomainChar &&
    (match l.drop i with
     | c :: b => c = '.' && decide (2 ≤ b.length) && b.all Char.isAlpha
     | [] => false)

/-- Full match of `^[a-zA-Z0-9.-]+\.[a-zA-Z]{2,}$` against exactly `l`
(the backtracking regex matches iff some split works). -/
def domainCore (l : List Char) : Bool :=
  (List.range l.length).any (domainSplitAt l)

/-- Python `re.match` with a `$`-terminated pattern: `$` also matches just
before a single trailing newline. -/
def dollarNl (core : List Char → Bool) (l : List Char) : Bool :=
  core l || (l.getLast? = some '\n' && core l.dropLast)

/-- `re.match(r'^[a-zA-Z0-9.-]+\.[a-zA-Z]{2,}$', l) is not None`. -/
def pyMatchDomain : List Char → Bool := dollarNl domainCore

/-- `validate_domain`: remove every `https://` then every `http://`, strip
trailing slashes, and require the regex to match; `none` models the
`ValueError "Invalid domain format"`. -/
def validate_domain (l : List Char) : Option (List Char) :=
  let d := rstripSlash (stripHttp (stripHttps l))
  if pyMatchDomain d then some d else none

/-- The domain normalization as the claim words it: strip one *leading*
`http://` or `https://` prefix, strip trailing slashes, then require the
`labels.tld` shape (letters/digits/dot/hyphen labels, final label letters
only, length ≥ 2) — used to compare the spec's description against the
source's behaviour. -/
def normalizeDomainSpec (l : List Char) : Option (List Char) :=
  let s₁ := if httpsPat.isPrefixOf l then l.drop httpsPat.length
            else if httpPat.isPrefixOf l then l.drop httpPat.length
            else l
  let s₂ := rstripSlash s₁
  if domainCore s₂ then some s₂ else none

/-! ## Ticket validation (`validate_ticket_format`) -/

/-- Full match of `^[A-Z][A-Z0-9]*-[0-9]+$` against exactly `l`: an upper
letter, then upper letters/digits, then `-`, then at least one digit.  The
character classes exclude `-`, so the greedy scan is exact. -/
def ticketCore : List Char → Bool
  | [] => false
  | c :: rest =>
    c.isUpper &&
      (match rest.dropWhile (fun x => x.isUpper || x.isDigit) with
       | '-' :: ds => !ds.isEmpty && ds.all Char.isDigit
       | _ => false)

/-- `re.match(r'^[A-Z][A-Z0-9]*-[0-9]+$', l) is not None`. -/
def pyMatchTicket : List Char → Bool := dollarNl ticketCore

/-- `validate_ticket_format`: match the regex against `ticket.upper()`. -/
def validate_ticket_format (l : List Char) : Bool :=
  pyMatchTicket (pyUpper l)

/-! ## Date parsing (`datetime.strptime(s, '%Y-%m-%d')`) and the
submission timestamp -/

/-- A calendar date. -/
structure Date where
  year : ℕ
  month : ℕ
  day : ℕ
deriving DecidableEq, Repr

/-- Split a char list on `-` (like Python `re` treats the literal `-`
separators: the digit tokens cannot contain `-`). -/
def splitDash : List Char → List (List Char)
  | [] => [[]]
  | c :: rest =>
    if c = '-' then [] :: splitDash rest
    else
      match splitDash rest with
      | s :: ss => (c :: s) :: ss
      | [] => [[c]]

/-- Gregorian leap year. -/
def isLeap (y : ℕ) : Bool := y % 4 = 0 && (y % 100 ≠ 0 || y % 400 = 0)

/-- Days in a month (as `datetime` enforces). -/
def daysInMonth (y m : ℕ) : ℕ :=
  if m = 2 then (if isLeap y then 29 else 28)
  else if m = 4 || m = 6 || m = 9 || m = 11 then 30
  else 31

/-- `datetime.strptime(s, '%Y-%m-%d')`: `%Y` is exactly four digits,
`%m`/`%d` are one or two digits (zero padding optional) whose values must
lie in 1–12 / 1–31, the whole string must be consumed, and the resulting
triple must be a real calendar date with year ≥ 1 (else `datetime` raises
`ValueError`).  `none` models the `ValueError`. -/
def strptimeYMD (l : List Char) : Option Date :=
  match splitDash l with
  | [a, b, c] =>
    if a.length = 4 && a.all Char.isDigit &&
       1 ≤ b.length && b.length ≤ 2 && b.all Char.isDigit &&
       1 ≤ c.length && c.length ≤ 2 && c.all Char.isDigit then
      let y := digitsVal a
      let m := digitsVal b
      let d := digitsVal c
      if 1 ≤ y && 1 ≤ m && m ≤ 12 && 1 ≤ d && d ≤ daysInMonth y m then
        some ⟨y, m, d⟩
      else none
    else none
  | _ => none

/-- Strict date comparison, used for the future-date warning
(`date_obj.date() > current_date`). -/
def dateLt (a b : Date) : Bool :=
  a.year < b.year ||
    (a.year = b.year &&
      (a.month < b.month || (a.month = b.month && a.day < b.day)))

/-- Left-pad a digit string with `0` to width `w`. -/
def padZero (w : ℕ) (l : List Char) : List Char :=
  List.replicate (w - l.length) '0' ++ l

/-- The date part of `datetime.isoformat()`: `YYYY-MM-DD`
(year zero-padded to 4, month/day to 2). -/
def renderYMD (y m d : ℕ) : List Char :=
  padZero 4 (natChars y) ++ ['-'] ++ padZero 2 (natChars m) ++ ['-'] ++
    padZero 2 (natChars d)

/-- The submission timestamp: the parsed date at 09:00:00 UTC, rendered by
`isoformat()` and then `.replace('+00:00', '.000+0000')` — i.e.
`YYYY-MM-DDT09:00:00.000+0000`. -/
def isoStarted (d : Date) : List Char :=
  renderYMD d.year d.month d.day ++ toL "T09:00:00.000+0000"

/-- The claim's strict `YYYY-MM-DD` shape: exactly four digits, dash, two
digits, dash, two digits. -/
def strictYMDShape (l : List Char) : Bool :=
  match splitDash l with
  | [a, b, c] =>
    a.length = 4 && a.all Char.isDigit && b.length = 2 && b.all Char.isDigit &&
      c.length = 2 && c.all Char.isDigit
  | _ => none = some () -- false, spelled without a bare literal

/-! ## Worklog submission (`log_worklog`) -/

/-- Loaded configuration (the optional cloud id is unused by the
submission path and omitted). -/
structure Config where
  email : List Char
  token : List Char
  domain : List Char
deriving DecidableEq, Repr

/-- Outcome of one `requests.post`: an HTTP response with status code and
body, or a raised `RequestException`. -/
inductive NetOutcome where
  | resp : ℕ → List Char → NetOutcome
  | exn : List Char → NetOutcome
deriving DecidableEq, Repr

/-- The Atlassian rich-text comment document
`{type:doc, version:1, content:[{type:paragraph, content:[{type:text,
text:...}]}]}`; only the wrapped text varies, so it is modelled by that
text. -/
structure AdfDoc where
  text : List Char
deriving DecidableEq, Repr

/-- The worklog request body. -/
structure Payload where
  timeSpent : List Char
  comment : AdfDoc
  started : List Char
deriving DecidableEq, Repr

/-- One HTTP POST as issued by `requests.post`. -/
structure HttpCall where
  url : List Char
  body : Payload
  authUser : List Char
  authToken : List Char
deriving DecidableEq, Repr

/-- The distinct failure messages `log_worklog` prints before returning
`False`. -/
inductive FailReason where
  | invalidTicket : FailReason
  | invalidHours : HoursError → FailReason
  | invalidDate : FailReason
  | httpStatus : ℕ → FailReason
  | requestFailed : FailReason
deriving DecidableEq, Repr

/-- The boolean result of `log_worklog`, with the failure reason kept. -/
inductive LogResult where
  | success : LogResult
  | failure : FailReason → LogResult
deriving DecidableEq, Repr

/-- An uncaught Python exception (the only kind the modelled code can
raise is `ValueError`). -/
inductive PyError where
  | valueError : PyError
deriving DecidableEq, Repr

/-- Fractional decimal digits of `r / d` (`0 < r < d`), fuel-bounded. -/
def fracChars : ℕ → ℕ → ℕ → List Char
  | 0, _, _ => []
  | fuel + 1, r, d =>
    if r = 0 then []
    else Char.ofNat (48 + r * 10 / d) :: fracChars fuel (r * 10 % d) d

/-- Python `str()` of a nonnegative finite float `n / d` in positional
notation, e.g. `4.0`, `10.25`.  (Python switches to scientific notation
outside `[1e-4, 1e16)`; values in that regime never reach the payload
builder in the claims at hand and are not modelled.) -/
def reprPosFloat (n d : ℕ) : List Char :=
  natChars (n / d) ++ ['.'] ++
    (if n % d = 0 then ['0'] else fracChars 1100 (n % d) d)

/-- Python `str()` / f-string rendering of a float. -/
def pyFloatRepr : PyFloat → List Char
  | .nan => toL "nan"
  | .inf => toL "inf"
  | .ninf => toL "-inf"
  | .fin n d => (if n < 0 then ['-'] else []) ++ reprPosFloat n.natAbs d

/-- The worklog endpoint
`https://{domain}/rest/api/3/issue/{ticket}/worklog`. -/
def urlFor (cfg : Config) (ticket : List Char) : List Char :=
  toL "https://" ++ cfg.domain ++ toL "/rest/api/3/issue/" ++ ticket ++
    toL "/worklog"

/-- `log_worklog(config, ticket, hours, date_str, comment, dry_run)`.

Every fallible step of the source is wrapped in `try/except`, so every
branch of this embedding returns `.ok`; the result carries the boolean
outcome (with its printed reason), the list of HTTP calls issued, and
whether the future-date warning was printed.  `today` stands for
`datetime.now().date()`; `net` is the outcome the network would produce
for the single possible POST. -/
def log_worklog (cfg : Config) (ticket hours date_str comment : List Char)
    (dry_run : Bool) (today : Date) (net : NetOutcome) :
    Except PyError (LogResult × List HttpCall × Bool) :=
  let t := pyUpper (pyStrip ticket)
  if !validate_ticket_format t then .ok (.failure .invalidTicket, [], false)
  else
    match validate_hours hours with
    | .error e => .ok (.failure (.invalidHours e), [], false)
    | .ok hf =>
      match strptimeYMD (pyStrip date_str) with
      | none => .ok (.failure .invalidDate, [], false)
      | some dobj =>
        let warned := dateLt today dobj
        if dry_run then .ok (.success, [], warned)
        else
          let payload : Payload :=
            ⟨pyFloatRepr hf ++ ['h'], ⟨comment⟩, isoStarted dobj⟩
          let call : HttpCall := ⟨urlFor cfg t, payload, cfg.email, cfg.token⟩
          match net with
          | .resp code _ =>
            if code = 201 then .ok (.success, [call], warned)
            else .ok (.failure (.httpStatus code), [call], warned)
          | .exn _ => .ok (.failure .requestFailed, [call], warned)

/-! ## The main row-processing loop -/

/-- One CSV row, with the four recognized columns (a missing column reads
as the empty string). -/
structure Row where
  date : List Char
  ticket : List Char
  desc : List Char
  hours : List Char
deriving DecidableEq, Repr

/-- Run totals (and, for the frame claims, the HTTP calls issued). -/
structure Summary where
  total : ℕ
  succ : ℕ
  fail : ℕ
  calls : List HttpCall
deriving DecidableEq, Repr

/-- `not all([date, ticket, hours])`: some required field is blank after
stripping. -/
def blankSkip (r : Row) : Bool :=
  pyStrip r.date = ([] : List Char) || pyStrip r.ticket = ([] : List Char) ||
    pyStrip r.hours = ([] : List Char)

/-- `args.limit and total_entries > args.limit`: the limit is active when
truthy (present and nonzero) and the just-incremented total exceeds it. -/
def limitCut (limit : Option ℤ) (total : ℕ) : Bool :=
  match limit with
  | none => false
  | some v => if v = 0 then false else decide ((total : ℤ) > v)

/-- The `for` loop of `main` over the CSV rows.  `t` is the running
`total_entries`, `k` indexes the network outcomes of successive real
POSTs.  A row whose (non-blank) hours string cannot be parsed by
`float()` raises `ValueError` out of the loop — modelled by `.error`,
which `main` turns into exit code 1. -/
def mainLoop (cfg : Config) (dryRun : Bool) (today : Date)
    (net : ℕ → NetOutcome) (limit : Option ℤ) :
    ℕ → ℕ → List Row → Except PyError Summary
  | _, _, [] => .ok ⟨0, 0, 0, []⟩
  | t, k, r :: rest =>
    let d := pyStrip r.date
    let tk := pyStrip r.ticket
    let w := pyStrip r.desc
    let h := pyStrip r.hours
    if blankSkip r then mainLoop cfg dryRun today net limit t k rest
    else
      match pyParseFloat h with
      | none => .error .valueError
      | some v =>
        if pyEqZero v then mainLoop cfg dryRun today net limit t k rest
        else if limitCut limit (t + 1) then .ok ⟨1, 0, 0, []⟩
        else
          let comment := if w ≠ [] then w else toL "Work on " ++ tk
          match log_worklog cfg tk h d comment dryRun today (net k) with
          | .error e => .error e
          | .ok (res, calls, _) =>
            match mainLoop cfg dryRun today net limit (t + 1) (k + 1) rest with
            | .error e => .error e
            | .ok s =>
              .ok ⟨s.total + 1,
                   s.succ + (if res = .success then 1 else 0),
                   s.fail + (if res = .success then 0 else 1),
                   calls ++ s.calls⟩

/-- The process exit code determined by the loop (the generic
`except Exception` handler in `main` turns any escaped exception into
`sys.exit(1)`; a completed loop falls through to exit code 0). -/
def exitCode (x : Except PyError Summary) : ℕ :=
  match x with
  | .ok _ => 0
  | .error _ => 1

/-! Concrete fixtures used by witnesses and counterexamples. -/

/-- A well-formed configuration. -/
def cfg0 : Config :=
  ⟨toL "user@example.com", toL "token123", toL "company.atlassian.net"⟩

/-- A fixed current date. -/
def today0 : Date := ⟨2025, 1, 1⟩

/-- A network that always answers HTTP 201. -/
def net201 : ℕ → NetOutcome := fun _ => .resp 201 []

/-- The spec's example CSV row `2024-01-15,PROJ-123,Fixed bug,4`. -/
def rowFixedBug : Row := ⟨toL "2024-01-15", toL "PROJ-123", toL "Fixed bug", toL "4"⟩

/-- A valid row with an empty work description. -/
def rowNoDesc : Row := ⟨toL "2024-01-15", toL "PROJ-123", [], toL "4"⟩

/-- A row whose hours column is non-blank but not a number. -/
def rowBadHours : Row := ⟨toL "2024-01-15", toL "PROJ-123", toL "x", toL "abc"⟩

/-! ## Derived row predicates (used to state the limit claims) -/

/-- A row that the loop processes (neither blank-skipped nor zero-hours;
rows with unparsable non-blank hours abort the loop instead and are
treated separately). -/
def nonSkippedB (r : Row) : Bool :=
  !blankSkip r &&
    (match pyParseFloat (pyStrip r.hours) with
     | some v => !pyEqZero v
     | none => true)

/-- The row cannot trigger the `float()` `ValueError` in the skip check:
it is blank-skipped or its hours parse. -/
def hoursSafe (r : Row) : Bool :=
  blankSkip r || (pyParseFloat (pyStrip r.hours)).isSome

/-- Number of non-skipped rows. -/
def nsCount (rows : List Row) : ℕ := (rows.filter nonSkippedB).length

/-- The prefix of the row list containing the first `n` non-skipped rows
(and every skipped row before them). -/
def nsTake : ℕ → List Row → List Row
  | _, [] => []
  | n, r :: rest =>
    if nonSkippedB r then
      match n with
      | 0 => []
      | m + 1 => r :: nsTake m rest
    else r :: nsTake n rest

/-! ## Helper lemmas -/

/-- A successful `validate_hours` means the hours string parses, and the
parsed value is not Python-equal to `0` (so the zero-hours skip check in
`main` does not fire on it). -/
theorem validate_hours_ok_parse (s : List Char) (h : PyFloat)
    (hok : validate_hours s = .ok h) :
    pyParseFloat s = some h ∧ pyEqZero h = false := by
  unfold validate_hours at hok
  cases hp : pyParseFloat s with
  | none => rw [hp] at hok; exact absurd hok (by simp)
  | some v =>
    rw [hp] at hok
    dsimp only at hok
    by_cases h1 : pyLe v (.fin 0 1)
    · rw [if_pos h1] at hok; exact absurd hok (by simp)
    · rw [if_neg h1] at hok
      by_cases h2 : pyLt (.fin 24 1) v
      · rw [if_pos h2] at hok; exact absurd hok (by simp)
      · rw [if_neg h2] at hok
        cases hok
        refine ⟨rfl, ?_⟩
        cases h with
        | nan => rfl
        | inf => rfl
        | ninf => simp [pyLe] at h1
        | fin n d =>
          simp only [pyEqZero]
          simp only [pyLe, decide_eq_true_eq] at h1
          simp only [decide_eq_false_iff_not]
          intro hn
          exact h1 (by omega)

/-! ## Claim C1 -/

/-- C1: the claim says a row with badly formatted hours is recorded as a
failed entry and processing continues with exit code 0.  The code instead
evaluates `float(hours)` in the skip check of `main`, so a non-blank,
unparsable hours value (here `"abc"`) raises `ValueError` out of the row
loop: the run aborts before the next (valid) row and the generic handler
exits with code 1.  (Bad ticket or date formats are indeed caught inside
`log_worklog` and only counted as failures.) -/
theorem c1_bad_hours_aborts_run :
    mainLoop cfg0 false today0 net201 none 0 0 [rowBadHours, rowFixedBug] =
        .error .valueError ∧
      exitCode (mainLoop cfg0 false today0 net201 none 0 0
        [rowBadHours, rowFixedBug]) = 1 ∧
      mainLoop cfg0 false today0 net201 none 0 0
          [⟨toL "2024-01-15", toL "badticket", toL "x", toL "4"⟩, rowFixedBug] =
        .ok ⟨2, 1, 1,
          [⟨toL "https://company.atlassian.net/rest/api/3/issue/PROJ-123/worklog",
            ⟨toL "4.0h", ⟨toL "Fixed bug"⟩, toL "2024-01-15T09:00:00.000+0000"⟩,
            toL "user@example.com", toL "token123"⟩]⟩ := by
  refine ⟨by decide, by decide, by decide⟩

/-! ## Claim C2 -/

/-- C2 counterexample: `float("nan")` parses, and `nan` passes both bound
checks because every comparison with `nan` is false, so `validate_hours`
returns `nan` — which does not satisfy `0 < hours ≤ 24` (both Python
comparisons with `nan` are false). -/
theorem c2_nan_counterexample :
    validate_hours (toL "nan") = .ok .nan ∧
      pyLt (.fin 0 1) .nan = false ∧ pyLe .nan (.fin 24 1) = false := by
  refine ⟨by decide, rfl, rfl⟩

/-- C2 (amended): `validate_hours` fails with `NotANumber` when the string
is unparsable, with `NonPositive` when the parsed value is `<= 0`, with
`TooLarge` when it is `> 24` (both comparisons with Python semantics, so
false for `nan`), and otherwise returns the parsed value; consequently
every *finite* returned value `n / d` satisfies `0 < n/d ≤ 24`, and the
only non-finite value it can return is `nan` (for input parsing to
`nan`). -/
theorem c2_validate_hours_classification (s : List Char) :
    (pyParseFloat s = none → validate_hours s = .error .notANumber) ∧
    (∀ h, pyParseFloat s = some h → pyLe h (.fin 0 1) = true →
      validate_hours s = .error .nonPositive) ∧
    (∀ h, pyParseFloat s = some h → pyLe h (.fin 0 1) = false →
      pyLt (.fin 24 1) h = true → validate_hours s = .error .tooLarge) ∧
    (∀ h, pyParseFloat s = some h → pyLe h (.fin 0 1) = false →
      pyLt (.fin 24 1) h = false → validate_hours s = .ok h) ∧
    (∀ n d, validate_hours s = .ok (.fin n d) →
      0 < n ∧ n ≤ 24 * (d : ℤ)) ∧
    (∀ v, validate_hours s = .ok v → v = .nan ∨ ∃ n d, v = .fin n d) := by
  refine ⟨?_, ?_, ?_, ?_, ?_, ?_⟩
  · intro hp; simp [validate_hours, hp]
  · intro h hp h1; simp [validate_hours, hp, h1]
  · intro h hp h1 h2; simp [validate_hours, hp, h1, h2]
  · intro h hp h1 h2; simp [validate_hours, hp, h1, h2]
  · intro n d hok
    unfold validate_hours at hok
    cases hp : pyParseFloat s with
    | none => rw [hp] at hok; exact absurd hok (by simp)
    | some v =>
      rw [hp] at hok
      dsimp only at hok
      by_cases h1 : pyLe v (.fin 0 1)
      · rw [if_pos h1] at hok; exact absurd hok (by simp)
      · rw [if_neg h1] at hok
        by_cases h2 : pyLt (.fin 24 1) v
        · rw [if_pos h2] at hok; exact absurd hok (by simp)
        · rw [if_neg h2] at hok
          cases hok
          simp only [pyLe, decide_eq_true_eq] at h1
          simp only [pyLt, decide_eq_true_eq] at h2
          constructor
          · omega
          · omega
  · intro v hok
    have := validate_hours_ok_parse s v hok
    cases v with
    | nan => exact Or.inl rfl
    | fin n d => exact Or.inr ⟨n, d, rfl⟩
    | inf =>
      unfold validate_hours at hok
      rw [this.1] at hok
      exact absurd hok (by simp [pyLt, pyLe])
    | ninf =>
      unfold validate_hours at hok
      rw [this.1] at hok
      exact absurd hok (by simp [pyLt, pyLe])

/-- C2 witness: the classification applied at input `"8"`. -/
theorem c2_validate_hours_classification_witness :
    0 < (8 : ℤ) ∧ (8 : ℤ) ≤ 24 * ((1 : ℕ) : ℤ) :=
  (c2_validate_hours_classification (toL "8")).2.2.2.2.1 8 1 (by decide)

/-! ## Claim C7 -/

/-- C7: with `dry_run` true, an entry that passes ticket, hours and date
validation yields a success result and the submitter issues no HTTP call
at all, whatever the network would have answered. -/
theorem c7_dry_run_no_network (cfg : Config)
    (ticket hours date_str comment : List Char) (today : Date)
    (net : NetOutcome) (hf : PyFloat) (dobj : Date)
    (ht : validate_ticket_format (pyUpper (pyStrip ticket)) = true)
    (hh : validate_hours hours = .ok hf)
    (hd : strptimeYMD (pyStrip date_str) = some dobj) :
    log_worklog cfg ticket hours date_str comment true today net =
      .ok (.success, [], dateLt today dobj) := by
  simp [log_worklog, ht, hh, hd]

/-- C7 witness: the spec's example row `2024-01-15,PROJ-123,Fixed bug,4`
in dry-run mode. -/
theorem c7_dry_run_no_network_witness :
    log_worklog cfg0 (toL "PROJ-123") (toL "4") (toL "2024-01-15")
        (toL "Fixed bug") true today0 (.resp 500 []) =
      .ok (.success, [], false) :=
  c7_dry_run_no_network cfg0 (toL "PROJ-123") (toL "4") (toL "2024-01-15")
    (toL "Fixed bug") today0 (.resp 500 []) (.fin 4 1) ⟨2024, 1, 15⟩
    (by decide) (by decide) (by decide)

/-! ## Claim C6 -/

/-- C6: `log_worklog` is total — every input, including every network
outcome, produces an `.ok` submission result, because each fallible step
sits inside a `try/except` (or branches on a checked condition); and it
re-validates ticket and hours itself, returning a specific failure with no
HTTP call when either fails. -/
theorem c6_defensive_no_raise (cfg : Config)
    (ticket hours date_str comment : List Char) (dr : Bool) (today : Date)
    (net : NetOutcome) :
    (∃ v, log_worklog cfg ticket hours date_str comment dr today net = .ok v) ∧
    (validate_ticket_format (pyUpper (pyStrip ticket)) = false →
      log_worklog cfg ticket hours date_str comment dr today net =
        .ok (.failure .invalidTicket, [], false)) ∧
    (∀ e, validate_ticket_format (pyUpper (pyStrip ticket)) = true →
      validate_hours hours = .error e →
      log_worklog cfg ticket hours date_str comment dr today net =
        .ok (.failure (.invalidHours e), [], false)) ∧
    (∀ hf, validate_ticket_format (pyUpper (pyStrip ticket)) = true →
      validate_hours hours = .ok hf →
      strptimeYMD (pyStrip date_str) = none →
      log_worklog cfg ticket hours date_str comment dr today net =
        .ok (.failure .invalidDate, [], false)) := by
  refine ⟨?_, ?_, ?_, ?_⟩
  · by_cases ht : validate_ticket_format (pyUpper (pyStrip ticket))
    · cases hh : validate_hours hours with
      | error e =>
        exact ⟨(.failure (.invalidHours e), [], false),
          by simp [log_worklog, ht, hh]⟩
      | ok hf =>
        cases hd : strptimeYMD (pyStrip date_str) with
        | none =>
          exact ⟨(.failure .invalidDate, [], false),
            by simp [log_worklog, ht, hh, hd]⟩
        | some dobj =>
          cases dr with
          | true =>
            exact ⟨(.success, [], dateLt today dobj),
              by simp [log_worklog, ht, hh, hd]⟩
          | false =>
            cases net with
            | resp code body =>
              by_cases hc : code = 201
              · exact ⟨(.success,
                  [⟨urlFor cfg (pyUpper (pyStrip ticket)),
                    ⟨pyFloatRepr hf ++ ['h'], ⟨comment⟩, isoStarted dobj⟩,
                    cfg.email, cfg.token⟩], dateLt today dobj),
                  by simp [log_worklog, ht, hh, hd, hc]⟩
              · exact ⟨(.failure (.httpStatus code),
                  [⟨urlFor cfg (pyUpper (pyStrip ticket)),
                    ⟨pyFloatRepr hf ++ ['h'], ⟨comment⟩, isoStarted dobj⟩,
                    cfg.email, cfg.token⟩], dateLt today dobj),
                  by simp [log_worklog, ht, hh, hd, hc]⟩
            | exn m =>
              exact ⟨(.failure .requestFailed,
                [⟨urlFor cfg (pyUpper (pyStrip ticket)),
                  ⟨pyFloatRepr hf ++ ['h'], ⟨comment⟩, isoStarted dobj⟩,
                  cfg.email, cfg.token⟩], dateLt today dobj),
                by simp [log_worklog, ht, hh, hd]⟩
    · simp only [Bool.not_eq_true] at ht
      exact ⟨(.failure .invalidTicket, [], false), by simp [log_worklog, ht]⟩
  · intro h; simp [log_worklog, h]
  · intro e ht he; simp [log_worklog, ht, he]
  · intro hf ht hh hd; simp [log_worklog, ht, hh, hd]

/-- C6 witness: a malformed ticket is rejected by the submitter itself,
with no HTTP call, even though a network answer was available. -/
theorem c6_defensive_no_raise_witness :
    log_worklog cfg0 (toL "badticket") (toL "4") (toL "2024-01-15")
        (toL "x") false today0 (.resp 201 []) =
      .ok (.failure .invalidTicket, [], false) :=
  (c6_defensive_no_raise cfg0 (toL "badticket") (toL "4") (toL "2024-01-15")
    (toL "x") false today0 (.resp 201 [])).2.1 (by decide)

/-! ## Claim C5 -/

/-- C5: for a processed row, the submitted payload has
`timeSpent = "<hours>h"` (the float rendering of the validated hours),
`started` the normalized timestamp of the row's date, and a rich-text
comment wrapping the stripped description if non-empty, else the
synthesized `"Work on <ticket>"` (with the row's stripped ticket). -/
theorem c5_payload_shape (cfg : Config) (today : Date) (net : ℕ → NetOutcome)
    (r : Row) (hf : PyFloat) (dobj : Date)
    (hb : blankSkip r = false)
    (hh : validate_hours (pyStrip r.hours) = .ok hf)
    (ht : validate_ticket_format (pyUpper (pyStrip (pyStrip r.ticket))) = true)
    (hd : strptimeYMD (pyStrip (pyStrip r.date)) = some dobj) :
    ∃ res : LogResult, ∃ warned : Bool,
      mainLoop cfg false today net none 0 0 [r] =
        .ok ⟨1, if res = .success then 1 else 0,
             if res = .success then 0 else 1,
             [⟨urlFor cfg (pyUpper (pyStrip (pyStrip r.ticket))),
               ⟨pyFloatRepr hf ++ ['h'],
                ⟨if pyStrip r.desc ≠ [] then pyStrip r.desc
                 else toL "Work on " ++ pyStrip r.ticket⟩,
                isoStarted dobj⟩,
               cfg.email, cfg.token⟩]⟩ ∧ warned = dateLt today dobj := by
  have hp := validate_hours_ok_parse _ _ hh
  cases hn : net 0 with
  | resp code body =>
    by_cases hc : code = 201
    · subst hc
      refine ⟨.success, dateLt today dobj, ?_, rfl⟩
      simp [mainLoop, hb, hp.1, hp.2, limitCut, log_worklog, ht, hh, hd, hn]
    · refine ⟨.failure (.httpStatus code), dateLt today dobj, ?_, rfl⟩
      simp [mainLoop, hb, hp.1, hp.2, limitCut, log_worklog, ht, hh, hd, hn, hc]
  | exn m =>
    refine ⟨.failure .requestFailed, dateLt today dobj, ?_, rfl⟩
    simp [mainLoop, hb, hp.1, hp.2, limitCut, log_worklog, ht, hh, hd, hn]

/-- C5 witness: a row with empty `Work Description` submits comment text
`"Work on PROJ-123"`, `timeSpent = "4.0h"`, and the normalized
timestamp. -/
theorem c5_payload_shape_witness :
    ∃ s, mainLoop cfg0 false today0 net201 none 0 0 [rowNoDesc] = .ok s ∧
      s.calls.map (fun c => c.body.comment.text) = [toL "Work on PROJ-123"] ∧
      s.calls.map (fun c => c.body.timeSpent) = [toL "4.0h"] ∧
      s.calls.map (fun c => c.body.started) =
        [toL "2024-01-15T09:00:00.000+0000"] := by
  obtain ⟨res, w, h, hw⟩ := c5_payload_shape cfg0 today0 net201 rowNoDesc
    (.fin 4 1) ⟨2024, 1, 15⟩ (by decide) (by decide) (by decide) (by decide)
  refine ⟨_, h, ?_, ?_, ?_⟩ <;> (dsimp only; decide)

/-! ## Loop step lemmas -/

/-- `log_worklog` never raises: every input yields an `.ok` result. -/
theorem log_worklog_total (cfg : Config)
    (ticket hours date_str comment : List Char) (dr : Bool) (today : Date)
    (net : NetOutcome) :
    ∃ v, log_worklog cfg ticket hours date_str comment dr today net = .ok v := by
  by_cases ht : validate_ticket_format (pyUpper (pyStrip ticket))
  · cases hh : validate_hours hours with
    | error e =>
      exact ⟨(.failure (.invalidHours e), [], false),
        by simp [log_worklog, ht, hh]⟩
    | ok hf =>
      cases hd : strptimeYMD (pyStrip date_str) with
      | none =>
        exact ⟨(.failure .invalidDate, [], false),
          by simp [log_worklog, ht, hh, hd]⟩
      | some dobj =>
        cases dr with
        | true =>
          exact ⟨(.success, [], dateLt today dobj),
            by simp [log_worklog, ht, hh, hd]⟩
        | false =>
          cases net with
          | resp code body =>
            by_cases hc : code = 201
            · exact ⟨(.success,
                [⟨urlFor cfg (pyUpper (pyStrip ticket)),
                  ⟨pyFloatRepr hf ++ ['h'], ⟨comment⟩, isoStarted dobj⟩,
                  cfg.email, cfg.token⟩], dateLt today dobj),
                by simp [log_worklog, ht, hh, hd, hc]⟩
            · exact ⟨(.failure (.httpStatus code),
                [⟨urlFor cfg (pyUpper (pyStrip ticket)),
                  ⟨pyFloatRepr hf ++ ['h'], ⟨comment⟩, isoStarted dobj⟩,
                  cfg.email, cfg.token⟩], dateLt today dobj),
                by simp [log_worklog, ht, hh, hd, hc]⟩
          | exn m =>
            exact ⟨(.failure .requestFailed,
              [⟨urlFor cfg (pyUpper (pyStrip ticket)),
                ⟨pyFloatRepr hf ++ ['h'], ⟨comment⟩, isoStarted dobj⟩,
                cfg.email, cfg.token⟩], dateLt today dobj),
              by simp [log_worklog, ht, hh, hd]⟩
  · simp only [Bool.not_eq_true] at ht
    exact ⟨(.failure .invalidTicket, [], false), by simp [log_worklog, ht]⟩

/-- A blank-skipped row is passed over without touching the counters. -/
theorem mainLoop_cons_blank (cfg : Config) (dr : Bool) (today : Date)
    (net : ℕ → NetOutcome) (limit : Option ℤ) (t k : ℕ) (r : Row)
    (rest : List Row) (hb : blankSkip r = true) :
    mainLoop cfg dr today net limit t k (r :: rest) =
      mainLoop cfg dr today net limit t k rest := by
  simp [mainLoop, hb]

/-- A zero-hours row is passed over without touching the counters. -/
theorem mainLoop_cons_zero (cfg : Config) (dr : Bool) (today : Date)
    (net : ℕ → NetOutcome) (limit : Option ℤ) (t k : ℕ) (r : Row)
    (rest : List Row) (v : PyFloat) (hb : blankSkip r = false)
    (hv : pyParseFloat (pyStrip r.hours) = some v)
    (hz : pyEqZero v = true) :
    mainLoop cfg dr today net limit t k (r :: rest) =
      mainLoop cfg dr today net limit t k rest := by
  simp [mainLoop, hb, hv, hz]

/-- When the limit check fires on a non-skipped row, the loop stops: the
row is counted in the total but neither validated nor submitted. -/
theorem mainLoop_cons_cut (cfg : Config) (dr : Bool) (today : Date)
    (net : ℕ → NetOutcome) (limit : Option ℤ) (t k : ℕ) (r : Row)
    (rest : List Row) (v : PyFloat) (hb : blankSkip r = false)
    (hv : pyParseFloat (pyStrip r.hours) = some v)
    (hz : pyEqZero v = false) (hcut : limitCut limit (t + 1) = true) :
    mainLoop cfg dr today net limit t k (r :: rest) = .ok ⟨1, 0, 0, []⟩ := by
  simp [mainLoop, hb, hv, hz, hcut]

/-- A processed row: the submitter runs on the stripped fields with the
synthesized comment, and the loop recurses with bumped counters. -/
theorem mainLoop_cons_proc (cfg : Config) (dr : Bool) (today : Date)
    (net : ℕ → NetOutcome) (limit : Option ℤ) (t k : ℕ) (r : Row)
    (rest : List Row) (v : PyFloat) (hb : blankSkip r = false)
    (hv : pyParseFloat (pyStrip r.hours) = some v)
    (hz : pyEqZero v = false) (hcut : limitCut limit (t + 1) = false) :
    mainLoop cfg dr today net limit t k (r :: rest) =
      match log_worklog cfg (pyStrip r.ticket) (pyStrip r.hours)
          (pyStrip r.date)
          (if pyStrip r.desc ≠ [] then pyStrip r.desc
           else toL "Work on " ++ pyStrip r.ticket) dr today (net k) with
      | .error e => .error e
      | .ok (res, calls, _) =>
        match mainLoop cfg dr today net limit (t + 1) (k + 1) rest with
        | .error e => .error e
        | .ok s =>
          .ok ⟨s.total + 1,
               s.succ + (if res = .success then 1 else 0),
               s.fail + (if res = .success then 0 else 1),
               calls ++ s.calls⟩ := by
  simp [mainLoop, hb, hv, hz, hcut]

/-- A non-skipped row that cannot crash the skip check has non-blank
fields, parsable hours and a nonzero value. -/
theorem nonSkipped_elim (r : Row) (hns : nonSkippedB r = true)
    (hsafe : hoursSafe r = true) :
    blankSkip r = false ∧
      ∃ v, pyParseFloat (pyStrip r.hours) = some v ∧ pyEqZero v = false := by
  simp only [nonSkippedB, Bool.and_eq_true, Bool.not_eq_true'] at hns
  obtain ⟨hb, hm⟩ := hns
  refine ⟨hb, ?_⟩
  simp only [hoursSafe, hb, Bool.false_or] at hsafe
  obtain ⟨v, hv⟩ := Option.isSome_iff_exists.mp hsafe
  rw [hv] at hm
  exact ⟨v, hv, by simpa using hm⟩

/-- `nsCount` over a cons. -/
theorem nsCount_cons (r : Row) (rest : List Row) :
    nsCount (r :: rest) =
      if nonSkippedB r then nsCount rest + 1 else nsCount rest := by
  by_cases h : nonSkippedB r <;> simp [nsCount, List.filter_cons, h]

/-- A run over rows that are all skipped yields empty totals. -/
theorem mainLoop_all_skipped (cfg : Config) (dr : Bool) (today : Date)
    (net : ℕ → NetOutcome) (limit : Option ℤ) :
    ∀ rows : List Row, (∀ r ∈ rows, nonSkippedB r = false) →
    (∀ r ∈ rows, hoursSafe r = true) →
    ∀ t k, mainLoop cfg dr today net limit t k rows = .ok ⟨0, 0, 0, []⟩ := by
  intro rows
  induction rows with
  | nil => intro _ _ t k; rfl
  | cons r rest ih =>
    intro hns hsafe t k
    have hnsr : nonSkippedB r = false := hns r (by simp)
    have hsr : hoursSafe r = true := hsafe r (by simp)
    have tail₁ : ∀ x ∈ rest, nonSkippedB x = false := fun x hx => hns x (by simp [hx])
    have tail₂ : ∀ x ∈ rest, hoursSafe x = true := fun x hx => hsafe x (by simp [hx])
    by_cases hb : blankSkip r
    · rw [mainLoop_cons_blank cfg dr today net limit t k r rest hb]
      exact ih tail₁ tail₂ t k
    · simp only [Bool.not_eq_true] at hb
      simp only [hoursSafe, hb, Bool.false_or] at hsr
      obtain ⟨v, hv⟩ := Option.isSome_iff_exists.mp hsr
      have hz : pyEqZero v = true := by
        simp only [nonSkippedB, hb, Bool.not_false, Bool.true_and, hv] at hnsr
        simpa using hnsr
      rw [mainLoop_cons_zero cfg dr today net limit t k r rest v hb hv hz]
      exact ih tail₁ tail₂ t k

/-- If the limit check is already bound to fire (the running total has
reached it), the loop scans forward and stops at the first non-skipped
row, counting it but submitting nothing. -/
theorem mainLoop_cut_at_first (cfg : Config) (dr : Bool) (today : Date)
    (net : ℕ → NetOutcome) (limit : Option ℤ) (t : ℕ)
    (hcut : limitCut limit (t + 1) = true) :
    ∀ rows : List Row, (∀ r ∈ rows, hoursSafe r = true) →
    ∀ k, mainLoop cfg dr today net limit t k rows =
      .ok ⟨min 1 (nsCount rows), 0, 0, []⟩ := by
  intro rows
  induction rows with
  | nil => intro _ k; rfl
  | cons r rest ih =>
    intro hsafe k
    have hsr : hoursSafe r = true := hsafe r (by simp)
    have tail₂ : ∀ x ∈ rest, hoursSafe x = true := fun x hx => hsafe x (by simp [hx])
    cases hns : nonSkippedB r with
    | false =>
      rw [nsCount_cons]
      simp only [hns, if_false]
      by_cases hb : blankSkip r
      · rw [mainLoop_cons_blank cfg dr today net limit t k r rest hb]
        exact ih tail₂ k
      · simp only [Bool.not_eq_true] at hb
        simp only [hoursSafe, hb, Bool.false_or] at hsr
        obtain ⟨v, hv⟩ := Option.isSome_iff_exists.mp hsr
        have hz : pyEqZero v = true := by
          simp only [nonSkippedB, hb, Bool.not_false, Bool.true_and, hv] at hns
          simpa using hns
        rw [mainLoop_cons_zero cfg dr today net limit t k r rest v hb hv hz]
        exact ih tail₂ k
    | true =>
      obtain ⟨hb, v, hv, hz⟩ := nonSkipped_elim r hns hsr
      rw [mainLoop_cons_cut cfg dr today net limit t k r rest v hb hv hz hcut]
      rw [nsCount_cons]
      simp [hns]

/-- A limit of `0` is falsy in `args.limit and ...`, so it behaves exactly
like no limit at all. -/
theorem mainLoop_zero_limit (cfg : Config) (dr : Bool) (today : Date)
    (net : ℕ → NetOutcome) :
    ∀ (rows : List Row) (t k : ℕ),
      mainLoop cfg dr today net (some 0) t k rows =
        mainLoop cfg dr today net none t k rows := by
  intro rows
  induction rows with
  | nil => intro t k; rfl
  | cons r rest ih =>
    intro t k
    have hcut : limitCut (some 0) (t + 1) = false := by simp [limitCut]
    by_cases hb : blankSkip r
    · rw [mainLoop_cons_blank cfg dr today net (some 0) t k r rest hb,
        mainLoop_cons_blank cfg dr today net none t k r rest hb]
      exact ih t k
    · simp only [Bool.not_eq_true] at hb
      cases hv : pyParseFloat (pyStrip r.hours) with
      | none => simp [mainLoop, hb, hv]
      | some v =>
        cases hz : pyEqZero v with
        | true =>
          rw [mainLoop_cons_zero cfg dr today net (some 0) t k r rest v hb hv hz,
            mainLoop_cons_zero cfg dr today net none t k r rest v hb hv hz]
          exact ih t k
        | false =>
          rw [mainLoop_cons_proc cfg dr today net (some 0) t k r rest v hb hv hz hcut,
            mainLoop_cons_proc cfg dr today net none t k r rest v hb hv hz rfl]
          rw [ih (t + 1) (k + 1)]

/-! ## Claim C10 -/

/-- C10: `--limit 0` is falsy in `args.limit and ...`, so it means no
limit at all; a negative limit is truthy and `total > limit` already holds
at the first non-skipped row, so that row is counted and the loop stops
with nothing submitted. -/
theorem c10_limit_zero_and_negative (cfg : Config) (dr : Bool) (today : Date)
    (net : ℕ → NetOutcome) (rows : List Row)
    (hsafe : ∀ r ∈ rows, hoursSafe r = true) :
    mainLoop cfg dr today net (some 0) 0 0 rows =
        mainLoop cfg dr today net none 0 0 rows ∧
      ∀ v : ℤ, v < 0 →
        mainLoop cfg dr today net (some v) 0 0 rows =
          .ok ⟨min 1 (nsCount rows), 0, 0, []⟩ := by
  refine ⟨mainLoop_zero_limit cfg dr today net rows 0 0, ?_⟩
  intro v hv
  have hcut : limitCut (some v) (0 + 1) = true := by
    simp only [limitCut]
    rw [if_neg (by omega)]
    simp only [gt_iff_lt, decide_eq_true_eq]
    omega
  exact mainLoop_cut_at_first cfg dr today net (some v) 0 hcut rows hsafe 0

/-- C10 witness: two valid rows, limit `0` (same run as no limit) and
limit `-1` (first row counted, nothing submitted). -/
theorem c10_limit_zero_and_negative_witness :
    (mainLoop cfg0 false today0 net201 (some 0) 0 0 [rowFixedBug, rowFixedBug] =
        mainLoop cfg0 false today0 net201 none 0 0 [rowFixedBug, rowFixedBug]) ∧
      mainLoop cfg0 false today0 net201 (some (-1)) 0 0
          [rowFixedBug, rowFixedBug] =
        .ok ⟨min 1 (nsCount [rowFixedBug, rowFixedBug]), 0, 0, []⟩ := by
  have h := c10_limit_zero_and_negative cfg0 false today0 net201
    [rowFixedBug, rowFixedBug] (by decide)
  exact ⟨h.1, h.2 (-1) (by norm_num)⟩

/-! ## Claim C4 -/

/-- The `nsTake 0` prefix contains only skipped rows. -/
theorem nsTake_zero_skipped :
    ∀ rows : List Row, ∀ r ∈ nsTake 0 rows, nonSkippedB r = false := by
  intro rows
  induction rows with
  | nil => intro r hr; simp [nsTake] at hr
  | cons x rest ih =>
    intro r hr
    by_cases hx : nonSkippedB x
    · simp [nsTake, hx] at hr
    · simp only [Bool.not_eq_true] at hx
      simp only [nsTake, hx, Bool.false_eq_true, if_false, List.mem_cons] at hr
      rcases hr with rfl | hr
      · exact hx
      · exact ih r hr

/-- Every row of an `nsTake` prefix is a row of the original list. -/
theorem nsTake_mem :
    ∀ (n : ℕ) (rows : List Row), ∀ r ∈ nsTake n rows, r ∈ rows := by
  intro n rows
  induction rows generalizing n with
  | nil => intro r hr; simp [nsTake] at hr
  | cons x rest ih =>
    intro r hr
    by_cases hx : nonSkippedB x
    · cases n with
      | zero => simp [nsTake, hx] at hr
      | succ m =>
        simp only [nsTake, hx, if_true, List.mem_cons] at hr
        rcases hr with rfl | hr
        · exact List.mem_cons_self _ _
        · exact List.mem_cons_of_mem _ (ih m r hr)
    · simp only [Bool.not_eq_true] at hx
      simp only [nsTake, hx, Bool.false_eq_true, if_false, List.mem_cons] at hr
      rcases hr with rfl | hr
      · exact List.mem_cons_self _ _
      · exact List.mem_cons_of_mem _ (ih n r hr)

/-- The run with a positive limit `N`, split against the unlimited run on
the `nsTake n` prefix: with `n` processing slots left (running total
`N - n`), the limited run agrees with the unlimited run on the prefix in
successes, failures and calls; its total additionally counts the row that
trips the limit, when one exists. -/
theorem mainLoop_limit_split (cfg : Config) (dr : Bool) (today : Date)
    (net : ℕ → NetOutcome) (N : ℕ) (hN : 1 ≤ N) :
    ∀ rows : List Row, (∀ r ∈ rows, hoursSafe r = true) →
    ∀ n k, n ≤ N →
    ∃ s : Summary,
      mainLoop cfg dr today net (some (N : ℤ)) (N - n) k rows = .ok s ∧
      (∀ t₀, mainLoop cfg dr today net none t₀ k (nsTake n rows) =
        .ok ⟨min n (nsCount rows), s.succ, s.fail, s.calls⟩) ∧
      s.total = min (n + 1) (nsCount rows) ∧
      s.succ + s.fail = min n (nsCount rows) := by
  intro rows
  induction rows with
  | nil =>
    intro _ n k _
    refine ⟨⟨0, 0, 0, []⟩, rfl, fun t₀ => ?_, by simp [nsCount], by simp [nsCount]⟩
    simp [nsTake, nsCount, mainLoop]
  | cons r rest ih =>
    intro hsafe n k hn
    have hsr : hoursSafe r = true := hsafe r (by simp)
    have tail : ∀ x ∈ rest, hoursSafe x = true := fun x hx => hsafe x (by simp [hx])
    cases hns : nonSkippedB r with
    | false =>
      obtain ⟨s, h1, h2, h3, h4⟩ := ih tail n k hn
      have hTake : nsTake n (r :: rest) = r :: nsTake n rest := by
        simp [nsTake, hns]
      have hcount : nsCount (r :: rest) = nsCount rest := by
        rw [nsCount_cons]; simp [hns]
      by_cases hb : blankSkip r
      · refine ⟨s, ?_, ?_, by rw [hcount]; exact h3, by rw [hcount]; exact h4⟩
        · rw [mainLoop_cons_blank cfg dr today net _ _ k r rest hb]; exact h1
        · intro t₀
          rw [hTake, mainLoop_cons_blank cfg dr today net none t₀ k r _ hb,
            hcount]
          exact h2 t₀
      · simp only [Bool.not_eq_true] at hb
        simp only [hoursSafe, hb, Bool.false_or] at hsr
        obtain ⟨v, hv⟩ := Option.isSome_iff_exists.mp hsr
        have hz : pyEqZero v = true := by
          simp only [nonSkippedB, hb, Bool.not_false, Bool.true_and, hv] at hns
          simpa using hns
        refine ⟨s, ?_, ?_, by rw [hcount]; exact h3, by rw [hcount]; exact h4⟩
        · rw [mainLoop_cons_zero cfg dr today net _ _ k r rest v hb hv hz]
          exact h1
        · intro t₀
          rw [hTake, mainLoop_cons_zero cfg dr today net none t₀ k r _ v hb hv hz,
            hcount]
          exact h2 t₀
    | true =>
      obtain ⟨hb, v, hv, hz⟩ := nonSkipped_elim r hns hsr
      cases n with
      | zero =>
        have hcut : limitCut (some (N : ℤ)) (N - 0 + 1) = true := by
          simp only [limitCut, Nat.sub_zero]
          rw [if_neg (by exact_mod_cast Nat.one_le_iff_ne_zero.mp hN)]
          simp only [gt_iff_lt, decide_eq_true_eq]
          push_cast
          omega
        refine ⟨⟨1, 0, 0, []⟩, ?_, ?_, ?_, by simp [Nat.min_zero]⟩
        · exact mainLoop_cons_cut cfg dr today net _ _ k r rest v hb hv hz hcut
        · intro t₀
          have hTake : nsTake 0 (r :: rest) = [] := by simp [nsTake, hns]
          rw [hTake]
          simp [mainLoop]
        · rw [nsCount_cons]
          simp [hns]
      | succ m =>
        have hm : m ≤ N := le_trans (Nat.le_succ m) hn
        obtain ⟨s', h1, h2, h3, h4⟩ := ih tail m (k + 1) hm
        have harith : N - (m + 1) + 1 = N - m := by omega
        have hcut : limitCut (some (N : ℤ)) (N - (m + 1) + 1) = false := by
          simp only [limitCut]
          rw [if_neg (by exact_mod_cast Nat.one_le_iff_ne_zero.mp hN)]
          simp only [gt_iff_lt, decide_eq_false_iff_not, not_lt]
          have : ((N - (m + 1) + 1 : ℕ) : ℤ) ≤ (N : ℤ) := by
            push_cast
            omega
          exact this
        obtain ⟨⟨res, calls, warn⟩, hlog⟩ := log_worklog_total cfg
          (pyStrip r.ticket) (pyStrip r.hours) (pyStrip r.date)
          (if pyStrip r.desc ≠ [] then pyStrip r.desc
           else toL "Work on " ++ pyStrip r.ticket) dr today (net k)
        refine ⟨⟨s'.total + 1,
                 s'.succ + (if res = .success then 1 else 0),
                 s'.fail + (if res = .success then 0 else 1),
                 calls ++ s'.calls⟩, ?_, ?_, ?_, ?_⟩
        · rw [mainLoop_cons_proc cfg dr today net _ _ k r rest v hb hv hz hcut,
            hlog, harith, h1]
        · intro t₀
          have hTake : nsTake (m + 1) (r :: rest) = r :: nsTake m rest := by
            simp [nsTake, hns]
          rw [hTake,
            mainLoop_cons_proc cfg dr today net none t₀ k r _ v hb hv hz rfl,
            hlog, h2 (t₀ + 1)]
          rw [nsCount_cons]
          simp only [hns, if_true]
          have : min (m + 1) (nsCount rest + 1) = min m (nsCount rest) + 1 :=
            Nat.succ_min_succ m (nsCount rest)
          simp [this]
        · rw [nsCount_cons]
          simp only [hns, if_true]
          have : min (m + 1 + 1) (nsCount rest + 1) =
              min (m + 1) (nsCount rest) + 1 :=
            Nat.succ_min_succ (m + 1) (nsCount rest)
          simp only [this, h3]
        · rw [nsCount_cons]
          simp only [hns, if_true]
          have hmin : min (m + 1) (nsCount rest + 1) = min m (nsCount rest) + 1 :=
            Nat.succ_min_succ m (nsCount rest)
          rw [hmin]
          by_cases hres : res = .success <;> simp [hres] <;> omega

/-- C4 counterexample: with `--limit 1` and two valid rows, only the first
is validated and submitted (one call, one success), but the run total is
`2`, not `1`: the second row is counted by `total_entries += 1` before the
limit check breaks the loop. -/
theorem c4_total_counterexample :
    mainLoop cfg0 false today0 net201 (some 1) 0 0 [rowFixedBug, rowFixedBug] =
        .ok ⟨2, 1, 0,
          [⟨toL "https://company.atlassian.net/rest/api/3/issue/PROJ-123/worklog",
            ⟨toL "4.0h", ⟨toL "Fixed bug"⟩, toL "2024-01-15T09:00:00.000+0000"⟩,
            toL "user@example.com", toL "token123"⟩]⟩ ∧
      (2 : ℕ) ≠ 1 := by
  exact ⟨by decide, by decide⟩

/-- C4 (amended): with a positive limit `N`, only the first `N`
non-skipped rows are validated and submitted — the limited run produces
exactly the successes, failures and HTTP calls of the unlimited run on the
prefix holding the first `N` non-skipped rows — and the success/failure
tally covers exactly `min N (#non-skipped)` rows; but the reported total
is `min (N+1) (#non-skipped)`: when more non-skipped rows remain, the row
that trips the limit is counted in the total although it is neither
validated nor submitted. -/
theorem c4_limit_behaviour (cfg : Config) (dr : Bool) (today : Date)
    (net : ℕ → NetOutcome) (N : ℕ) (rows : List Row) (hN : 1 ≤ N)
    (hsafe : ∀ r ∈ rows, hoursSafe r = true) :
    ∃ s : Summary,
      mainLoop cfg dr today net (some (N : ℤ)) 0 0 rows = .ok s ∧
      mainLoop cfg dr today net none 0 0 (nsTake N rows) =
        .ok ⟨min N (nsCount rows), s.succ, s.fail, s.calls⟩ ∧
      s.total = min (N + 1) (nsCount rows) ∧
      s.succ + s.fail = min N (nsCount rows) := by
  obtain ⟨s, h1, h2, h3, h4⟩ :=
    mainLoop_limit_split cfg dr today net N hN rows hsafe N 0 le_rfl
  rw [Nat.sub_self] at h1
  exact ⟨s, h1, h2 0, h3, h4⟩

/-- C4 witness: the amended behaviour at limit `1` with two valid rows. -/
theorem c4_limit_behaviour_witness :
    ∃ s : Summary,
      mainLoop cfg0 false today0 net201 (some ((1 : ℕ) : ℤ)) 0 0
          [rowFixedBug, rowFixedBug] = .ok s ∧
      mainLoop cfg0 false today0 net201 none 0 0
          (nsTake 1 [rowFixedBug, rowFixedBug]) =
        .ok ⟨min 1 (nsCount [rowFixedBug, rowFixedBug]), s.succ, s.fail,
          s.calls⟩ ∧
      s.total = min (1 + 1) (nsCount [rowFixedBug, rowFixedBug]) ∧
      s.succ + s.fail = min 1 (nsCount [rowFixedBug, rowFixedBug]) :=
  c4_limit_behaviour cfg0 false today0 net201 1 [rowFixedBug, rowFixedBug]
    le_rfl (by decide)

/-! ## Domain lemmas (claims C3 and C9) -/

/-- A string with no occurrence of the pattern is left unchanged by the
replace scan, whatever the fuel. -/
theorem stripPatF_of_not_contains (pat : List Char) :
    ∀ (fuel : ℕ) (l : List Char), containsSeq pat l = false →
      stripPatF pat fuel l = l := by
  intro fuel
  induction fuel with
  | zero => intro l _; rfl
  | succ g ih =>
    intro l h
    cases l with
    | nil => rfl
    | cons c rest =>
      simp only [containsSeq, Bool.or_eq_false_iff] at h
      simp only [stripPatF, h.1, Bool.false_eq_true, if_false]
      rw [ih rest h.2]

/-- Removing a leading occurrence of the pattern, when the remainder holds
no further occurrence. -/
theorem stripPatF_append_self (pat : List Char) (hpat : pat ≠ [])
    (r : List Char) (hr : containsSeq pat r = false) (fuel : ℕ) :
    stripPatF pat (fuel + 1) (pat ++ r) = r := by
  obtain ⟨p, pp, rfl⟩ : ∃ p pp, pat = p :: pp := by
    cases pat with
    | nil => exact absurd rfl hpat
    | cons p pp => exact ⟨p, pp, rfl⟩
  have hpre : (p :: pp).isPrefixOf ((p :: pp) ++ r) = true :=
    List.isPrefixOf_iff_prefix.mpr (List.prefix_append _ _)
  simp only [List.cons_append, stripPatF, List.append_eq] at hpre ⊢
  rw [hpre]
  simp only [if_true]
  have hdrop : List.drop (p :: pp).length (p :: (pp ++ r)) = r := by
    rw [← List.cons_append]
    exact List.drop_left (p :: pp) r
  rw [hdrop]
  exact stripPatF_of_not_contains _ _ _ hr

/-- Any character of the pattern occurs in a string the pattern occurs
in. -/
theorem mem_of_containsSeq (pat : List Char) (c : Char) (hc : c ∈ pat) :
    ∀ l : List Char, containsSeq pat l = true → c ∈ l := by
  intro l
  induction l with
  | nil =>
    intro h
    simp only [containsSeq] at h
    have : pat = [] := List.prefix_nil.mp (List.isPrefixOf_iff_prefix.mp h)
    subst this
    exact absurd hc (by simp)
  | cons x rest ih =>
    intro h
    simp only [containsSeq, Bool.or_eq_true] at h
    rcases h with h | h
    · exact (List.isPrefixOf_iff_prefix.mp h).subset hc
    · exact List.mem_cons_of_mem _ (ih h)

/-- Occurrences survive prepending. -/
theorem containsSeq_append_of_right (pat x r : List Char)
    (h : containsSeq pat r = true) : containsSeq pat (x ++ r) = true := by
  induction x with
  | nil => exact h
  | cons c cs ih =>
    simp only [List.cons_append, containsSeq, List.append_eq, ih, Bool.or_true]

/-- If a character of the pattern is missing from the string, the pattern
does not occur. -/
theorem not_containsSeq_of_not_mem (pat : List Char) (c : Char)
    (hc : c ∈ pat) (l : List Char) (hl : c ∉ l) :
    containsSeq pat l = false := by
  cases h : containsSeq pat l with
  | false => rfl
  | true => exact absurd (mem_of_containsSeq pat c hc l h) hl

/-- `rstrip('/')` is the identity when the string does not end in `/`. -/
theorem rstripSlash_of_getLast (l : List Char)
    (h : l.getLast? ≠ some '/') : rstripSlash l = l := by
  unfold rstripSlash
  cases hrev : l.reverse with
  | nil =>
    rw [List.reverse_eq_nil_iff.mp hrev]
    rfl
  | cons x xs =>
    have hx : x ≠ '/' := by
      intro hx
      apply h
      rw [← List.head?_reverse, hrev, hx]
      rfl
    rw [List.dropWhile_cons, if_neg (by simpa using hx), ← hrev,
      List.reverse_reverse]

/-- Characters of `rstrip('/')` come from the original string. -/
theorem mem_of_mem_rstripSlash (l : List Char) (c : Char)
    (h : c ∈ rstripSlash l) : c ∈ l := by
  unfold rstripSlash at h
  rw [List.mem_reverse] at h
  have := (List.dropWhile_sublist (l := l.reverse)
    (fun x => x = '/')).subset h
  exact List.mem_reverse.mp this

/-- Decomposition of a successful match of
`^[a-zA-Z0-9.-]+\.[a-zA-Z]{2,}$`. -/
theorem domainCore_elim (l : List Char) (h : domainCore l = true) :
    ∃ a b, l = a ++ '.' :: b ∧ a ≠ [] ∧ a.all isDomainChar = true ∧
      2 ≤ b.length ∧ b.all Char.isAlpha = true := by
  simp only [domainCore, List.any_eq_true] at h
  obtain ⟨i, _, hsp⟩ := h
  simp only [domainSplitAt] at hsp
  cases hdrop : l.drop i with
  | nil => rw [hdrop] at hsp; simp at hsp
  | cons c b =>
    rw [hdrop] at hsp
    simp only [Bool.and_eq_true, Bool.not_eq_true', decide_eq_true_eq] at hsp
    obtain ⟨⟨hne, hall⟩, ⟨hc, hlen⟩, halpha⟩ := hsp
    subst hc
    refine ⟨l.take i, b, ?_, ?_, hall, hlen, halpha⟩
    · conv_lhs => rw [← List.take_append_drop i l]
      rw [hdrop]
    · intro heq
      rw [heq] at hne
      simp at hne

/-- Every character of a string matched by the domain regex is in the
class `[a-zA-Z0-9.-]`. -/
theorem all_domainChar_of_core (l : List Char) (h : domainCore l = true) :
    ∀ c ∈ l, isDomainChar c = true := by
  obtain ⟨a, b, rfl, _, hall, _, halpha⟩ := domainCore_elim l h
  intro c hc
  rw [List.mem_append] at hc
  rcases hc with hc | hc
  · exact (List.all_eq_true.mp hall) c hc
  · rcases List.mem_cons.mp hc with rfl | hc
    · rfl
    · have := (List.all_eq_true.mp halpha) c hc
      simp [isDomainChar, this]

/-- A string accepted by the (quirky, `$`-before-newline) regex match
contains no `/` and does not end in `/`. -/
theorem no_slash_of_match (l : List Char) (h : pyMatchDomain l = true) :
    '/' ∉ l ∧ l.getLast? ≠ some '/' := by
  simp only [pyMatchDomain, dollarNl, Bool.or_eq_true, Bool.and_eq_true,
    decide_eq_true_eq] at h
  rcases h with h | ⟨hlast, hcore⟩
  · have hmem : '/' ∉ l := by
      intro hm
      exact absurd (all_domainChar_of_core l h '/' hm) (by decide)
    exact ⟨hmem, fun hl => hmem (List.mem_of_getLast?_eq_some hl)⟩
  · have hne : l ≠ [] := by
      intro he
      rw [he] at hlast
      simp at hlast
    have hl : l = l.dropLast ++ [l.getLast hne] :=
      (List.dropLast_append_getLast hne).symm
    have hlast' : l.getLast hne = '\n' := by
      have := List.getLast?_eq_getLast l hne
      rw [this] at hlast
      exact (Option.some.inj hlast).symm ▸ rfl
    constructor
    · intro hm
      have hm' : '/' ∈ l.dropLast ++ [l.getLast hne] := hl ▸ hm
      rcases List.mem_append.mp hm' with hm2 | hm2
      · exact absurd (all_domainChar_of_core _ hcore '/' hm2) (by decide)
      · rw [List.mem_singleton, hlast'] at hm2
        exact absurd hm2 (by decide)
    · intro hsl
      rw [hlast] at hsl
      simp at hsl

/-- Without a trailing-newline opportunity the quirky match is the plain
regex match. -/
theorem pyMatchDomain_of_no_newline (l : List Char) (h : '\n' ∉ l) :
    pyMatchDomain l = domainCore l := by
  simp only [pyMatchDomain, dollarNl]
  have hd : (decide (l.getLast? = some '\n')) = false := by
    simp only [decide_eq_false_iff_not]
    intro hl
    exact h (List.mem_of_getLast?_eq_some hl)
  rw [hd]
  simp

/-! ## Claim C9 -/

/-- C9: `normalizeDomain` is idempotent — a successful output contains no
`/` (so the scheme replacements and the slash strip leave it unchanged)
and still matches the regex, so validating it again returns it as is. -/
theorem c9_normalize_idempotent (s d : List Char)
    (h : validate_domain s = some d) : validate_domain d = some d := by
  unfold validate_domain at h
  by_cases hm : pyMatchDomain (rstripSlash (stripHttp (stripHttps s))) = true
  · rw [if_pos hm] at h
    have hd : rstripSlash (stripHttp (stripHttps s)) = d := Option.some.inj h
    rw [hd] at hm
    obtain ⟨hmem, hlast⟩ := no_slash_of_match d hm
    have h1 : containsSeq httpsPat d = false :=
      not_containsSeq_of_not_mem _ '/' (by decide) _ hmem
    have h2 : containsSeq httpPat d = false :=
      not_containsSeq_of_not_mem _ '/' (by decide) _ hmem
    unfold validate_domain stripHttps stripHttp
    rw [stripPatF_of_not_contains _ _ _ h1, stripPatF_of_not_contains _ _ _ h2,
      rstripSlash_of_getLast _ hlast, if_pos hm]
  · rw [if_neg hm] at h
    exact absurd h (by simp)

/-- C9 witness: idempotence at a concrete successful input. -/
theorem c9_normalize_idempotent_witness :
    validate_domain (toL "company.atlassian.net") =
      some (toL "company.atlassian.net") :=
  c9_normalize_idempotent (toL "https://company.atlassian.net/")
    (toL "company.atlassian.net") (by decide)

/-! ## Claim C3 -/

/-- C3 counterexample: `str.replace` removes `https://` *anywhere* in the
string, not just a leading prefix, so `example.https://com` — which has no
leading scheme and does not match the domain shape — is accepted and
silently rewritten to `example.com`, while the claim as stated requires
`InvalidDomain`. -/
theorem c3_scheme_anywhere_counterexample :
    validate_domain (toL "example.https://com") = some (toL "example.com") ∧
      normalizeDomainSpec (toL "example.https://com") = none := by
  exact ⟨by decide, by decide⟩

/-- `https://` is never a prefix of `http://` followed by anything. -/
theorem https_not_prefix_http (r : List Char) :
    httpsPat.isPrefixOf (httpPat ++ r) = false := by
  cases hp : httpsPat.isPrefixOf (httpPat ++ r) with
  | false => rfl
  | true =>
    obtain ⟨t, ht⟩ := List.isPrefixOf_iff_prefix.mp hp
    simp [httpsPat, httpPat, List.cons_append] at ht

set_option maxHeartbeats 2000000 in
/-- C3 (amended): the normalization agrees with the claim's description on
every string in which neither `https://` nor `http://` occurs past the
first position and which contains no newline; in general the source
removes *every* occurrence of `https://` and then of `http://`, anywhere
in the string, and its shape check also tolerates one trailing newline
(the regex `$`). -/
theorem c3_domain_agreement (s : List Char)
    (h1 : containsSeq httpsPat (s.drop 1) = false)
    (h2 : containsSeq httpPat (s.drop 1) = false)
    (h3 : '\n' ∉ s) :
    validate_domain s = normalizeDomainSpec s := by
  cases s with
  | nil => decide
  | cons c s' =>
    simp only [List.drop_succ_cons, List.drop_zero] at h1 h2
    by_cases hps : httpsPat.isPrefixOf (c :: s') = true
    · obtain ⟨r, hr⟩ := List.isPrefixOf_iff_prefix.mp hps
      have hinj : 'h' :: (['t', 't', 'p', 's', ':', '/', '/'] ++ r) = c :: s' := hr
      injection hinj with hc hs
      rw [← hr]
      rw [← hs] at h1 h2
      have h3r : '\n' ∉ r := by
        rw [← hr] at h3
        intro hm
        exact h3 (List.mem_append_right _ hm)
      have h1r : containsSeq httpsPat r = false := by
        cases hcr : containsSeq httpsPat r with
        | false => rfl
        | true =>
          rw [containsSeq_append_of_right httpsPat
            ['t', 't', 'p', 's', ':', '/', '/'] r hcr] at h1
          exact absurd h1 (by simp)
      have h2r : containsSeq httpPat r = false := by
        cases hcr : containsSeq httpPat r with
        | false => rfl
        | true =>
          rw [containsSeq_append_of_right httpPat
            ['t', 't', 'p', 's', ':', '/', '/'] r hcr] at h2
          exact absurd h2 (by simp)
      have hstrip1 : stripHttps (httpsPat ++ r) = r := by
        unfold stripHttps
        have hlen : (httpsPat ++ r).length = 7 + r.length + 1 := by
          simp [httpsPat]
          omega
        rw [hlen]
        exact stripPatF_append_self httpsPat (by simp [httpsPat]) r h1r
          (7 + r.length)
      have hstrip2 : stripHttp r = r :=
        stripPatF_of_not_contains httpPat r.length r h2r
      have hnl : '\n' ∉ rstripSlash r := fun hm =>
        h3r (mem_of_mem_rstripSlash _ _ hm)
      have hpre : httpsPat.isPrefixOf (httpsPat ++ r) = true :=
        List.isPrefixOf_iff_prefix.mpr (List.prefix_append _ _)
      unfold validate_domain normalizeDomainSpec
      simp only [hstrip1, hstrip2, hpre, eq_self_iff_true, if_true]
      rw [pyMatchDomain_of_no_newline _ hnl]
      simp [List.drop_left]
    · by_cases hph : httpPat.isPrefixOf (c :: s') = true
      · obtain ⟨r, hr⟩ := List.isPrefixOf_iff_prefix.mp hph
        have hinj : 'h' :: (['t', 't', 'p', ':', '/', '/'] ++ r) = c :: s' := hr
        injection hinj with hc hs
        rw [← hr]
        rw [← hs] at h1 h2
        have h3r : '\n' ∉ r := by
          rw [← hr] at h3
          intro hm
          exact h3 (List.mem_append_right _ hm)
        have h2r : containsSeq httpPat r = false := by
          cases hcr : containsSeq httpPat r with
          | false => rfl
          | true =>
            rw [containsSeq_append_of_right httpPat
              ['t', 't', 'p', ':', '/', '/'] r hcr] at h2
            exact absurd h2 (by simp)
        have hcsA : containsSeq httpsPat (httpPat ++ r) = false := by
          show (httpsPat.isPrefixOf (httpPat ++ r) ||
            containsSeq httpsPat (['t', 't', 'p', ':', '/', '/'] ++ r)) = false
          rw [https_not_prefix_http r, h1]
          rfl
        have hstrip1 : stripHttps (httpPat ++ r) = httpPat ++ r := by
          unfold stripHttps
          exact stripPatF_of_not_contains httpsPat _ _ hcsA
        have hstrip2 : stripHttp (httpPat ++ r) = r := by
          unfold stripHttp
          have hlen : (httpPat ++ r).length = 6 + r.length + 1 := by
            simp [httpPat]
            omega
          rw [hlen]
          exact stripPatF_append_self httpPat (by simp [httpPat]) r h2r
            (6 + r.length)
        have hnl : '\n' ∉ rstripSlash r := fun hm =>
          h3r (mem_of_mem_rstripSlash _ _ hm)
        have hpre : httpPat.isPrefixOf (httpPat ++ r) = true :=
          List.isPrefixOf_iff_prefix.mpr (List.prefix_append _ _)
        unfold validate_domain normalizeDomainSpec
        simp only [hstrip1, hstrip2, hpre, https_not_prefix_http r,
          Bool.false_eq_true, if_false, eq_self_iff_true, if_true]
        rw [pyMatchDomain_of_no_newline _ hnl]
        simp [List.drop_left]
      · have hpsb : httpsPat.isPrefixOf (c :: s') = false := by
          cases h : httpsPat.isPrefixOf (c :: s') with
          | false => rfl
          | true => exact absurd h hps
        have hphb : httpPat.isPrefixOf (c :: s') = false := by
          cases h : httpPat.isPrefixOf (c :: s') with
          | false => rfl
          | true => exact absurd h hph
        have hcs1 : containsSeq httpsPat (c :: s') = false := by
          show (httpsPat.isPrefixOf (c :: s') || containsSeq httpsPat s') = false
          rw [hpsb, h1]
          rfl
        have hcs2 : containsSeq httpPat (c :: s') = false := by
          show (httpPat.isPrefixOf (c :: s') || containsSeq httpPat s') = false
          rw [hphb, h2]
          rfl
        have hstrip1 : stripHttps (c :: s') = c :: s' :=
          stripPatF_of_not_contains httpsPat _ _ hcs1
        have hstrip2 : stripHttp (c :: s') = c :: s' :=
          stripPatF_of_not_contains httpPat _ _ hcs2
        have hnl : '\n' ∉ rstripSlash (c :: s') := fun hm =>
          h3 (mem_of_mem_rstripSlash _ _ hm)
        unfold validate_domain normalizeDomainSpec
        simp only [hstrip1, hstrip2, hpsb, hphb, Bool.false_eq_true, if_false]
        rw [pyMatchDomain_of_no_newline _ hnl]

/-- C3 witness: agreement at the test-suite input with a leading
scheme. -/
theorem c3_domain_agreement_witness :
    validate_domain (toL "https://company.atlassian.net") =
      normalizeDomainSpec (toL "https://company.atlassian.net") :=
  c3_domain_agreement (toL "https://company.atlassian.net") (by decide)
    (by decide) (by decide)

/-! ## Claim C8 — numeric rendering lemmas -/

/-- The character of a single digit is a digit character of that value. -/
theorem digitChar_spec (d : ℕ) (hd : d < 10) :
    (Char.ofNat (48 + d)).isDigit = true ∧
      digitVal (Char.ofNat (48 + d)) = d := by
  interval_cases d <;> exact ⟨by decide, by decide⟩

/-- Appending one digit multiplies the value by ten. -/
theorem digitsVal_append_singleton (l : List Char) (c : Char) :
    digitsVal (l ++ [c]) = digitsVal l * 10 + digitVal c := by
  simp [digitsVal, List.foldl_append]

/-- The digit rendering of a natural number: all digits, the right value,
nonempty (given enough fuel). -/
theorem natCharsF_spec :
    ∀ fuel n, n < fuel →
      (natCharsF fuel n).all Char.isDigit = true ∧
        digitsVal (natCharsF fuel n) = n ∧ natCharsF fuel n ≠ [] := by
  intro fuel
  induction fuel with
  | zero => intro n hn; omega
  | succ g ih =>
    intro n hn
    by_cases h10 : n < 10
    · simp only [natCharsF, h10, if_true]
      obtain ⟨hdig, hval⟩ := digitChar_spec n h10
      refine ⟨by simp [hdig], ?_, by simp⟩
      simp [digitsVal, hval]
    · have hdivlt : n / 10 < g := by
        have := Nat.div_lt_self (by omega : 0 < n) (by omega : 1 < 10)
        omega
      obtain ⟨ihd, ihv, ihne⟩ := ih (n / 10) hdivlt
      simp only [natCharsF, h10, if_false]
      obtain ⟨hdig, hval⟩ := digitChar_spec (n % 10) (Nat.mod_lt n (by omega))
      refine ⟨?_, ?_, by simp⟩
      · simp [List.all_append, ihd, hdig]
      · rw [digitsVal_append_singleton, ihv, hval]
        omega

/-- Length bound for the digit rendering. -/
theorem natCharsF_length :
    ∀ fuel n k, n < fuel → n < 10 ^ k → 1 ≤ k →
      (natCharsF fuel n).length ≤ k := by
  intro fuel
  induction fuel with
  | zero => intro n k hn; omega
  | succ g ih =>
    intro n k hn hk hk1
    by_cases h10 : n < 10
    · simp only [natCharsF, h10, if_true, List.length_cons, List.length_nil]
      omega
    · have hdivlt : n / 10 < g := by
        have := Nat.div_lt_self (by omega : 0 < n) (by omega : 1 < 10)
        omega
      cases k with
      | zero => omega
      | succ j =>
        cases j with
        | zero => simp at hk; omega
        | succ i =>
          have hdivpow : n / 10 < 10 ^ (i + 1) := by
            rw [Nat.div_lt_iff_lt_mul (by omega : 0 < 10)]
            calc n < 10 ^ (i + 1 + 1) := hk
            _ = 10 ^ (i + 1) * 10 := by ring
          have := ih (n / 10) (i + 1) hdivlt hdivpow (by omega)
          simp only [natCharsF, h10, if_false, List.length_append,
            List.length_cons, List.length_nil]
          omega

/-- Zero-padding: exact width, digits preserved, value preserved. -/
theorem padZero_spec (w : ℕ) (l : List Char) (hlen : l.length ≤ w)
    (hdig : l.all Char.isDigit = true) :
    (padZero w l).length = w ∧ (padZero w l).all Char.isDigit = true ∧
      digitsVal (padZero w l) = digitsVal l := by
  refine ⟨?_, ?_, ?_⟩
  · simp only [padZero, List.length_append, List.length_replicate]
    omega
  · simp [padZero, List.all_append, hdig]
  · simp only [padZero]
    generalize w - l.length = z
    induction z with
    | zero => simp
    | succ j ihz =>
      rw [List.replicate_succ, List.cons_append]
      simp only [digitsVal, List.foldl_cons]
      have : (0 : ℕ) * 10 + digitVal '0' = 0 := by decide
      rw [this]
      exact ihz

/-- Digit strings contain no dash. -/
theorem not_dash_of_all_digits (l : List Char)
    (h : l.all Char.isDigit = true) : '-' ∉ l := by
  intro hm
  have := List.all_eq_true.mp h '-' hm
  exact absurd this (by decide)

/-- `splitDash` on a dash-free string. -/
theorem splitDash_no_dash : ∀ l : List Char, '-' ∉ l → splitDash l = [l] := by
  intro l
  induction l with
  | nil => intro _; rfl
  | cons c rest ih =>
    intro h
    have hc : ¬(c = '-') := fun hc => h (by simp [hc])
    have hrest : '-' ∉ rest := fun hm => h (by simp [hm])
    simp only [splitDash, if_neg hc, ih hrest]

/-- `splitDash` across the first dash. -/
theorem splitDash_append : ∀ a b : List Char, '-' ∉ a →
    splitDash (a ++ '-' :: b) = a :: splitDash b := by
  intro a
  induction a with
  | nil => intro b _; simp [splitDash]
  | cons c a' ih =>
    intro b h
    have hc : ¬(c = '-') := fun hc => h (by simp [hc])
    have ha : '-' ∉ a' := fun hm => h (by simp [hm])
    simp only [List.cons_append, splitDash, List.append_eq, if_neg hc, ih b ha]

/-- Month lengths never exceed 31. -/
theorem daysInMonth_le (y m : ℕ) : daysInMonth y m ≤ 31 := by
  unfold daysInMonth
  split
  · split <;> omega
  · split <;> omega

/-- The strict `YYYY-MM-DD` rendering of a real calendar date is parsed
back by the `%Y-%m-%d` model to exactly that date. -/
theorem strptimeYMD_renderYMD (y m d : ℕ) (hy1 : 1 ≤ y) (hy2 : y ≤ 9999)
    (hm1 : 1 ≤ m) (hm2 : m ≤ 12) (hd1 : 1 ≤ d) (hd2 : d ≤ daysInMonth y m) :
    strptimeYMD (renderYMD y m d) = some ⟨y, m, d⟩ := by
  obtain ⟨hyd, hyv, _⟩ := natCharsF_spec (y + 1) y (by omega)
  obtain ⟨hmd, hmv, _⟩ := natCharsF_spec (m + 1) m (by omega)
  obtain ⟨hdd, hdv, _⟩ := natCharsF_spec (d + 1) d (by omega)
  have hylen : (natChars y).length ≤ 4 :=
    natCharsF_length (y + 1) y 4 (by omega)
      (by calc y ≤ 9999 := hy2
          _ < 10 ^ 4 := by norm_num) (by omega)
  have hmlen : (natChars m).length ≤ 2 :=
    natCharsF_length (m + 1) m 2 (by omega)
      (by calc m ≤ 12 := hm2
          _ < 10 ^ 2 := by norm_num) (by omega)
  have hdlen : (natChars d).length ≤ 2 :=
    natCharsF_length (d + 1) d 2 (by omega)
      (by calc d ≤ daysInMonth y m := hd2
          _ ≤ 31 := daysInMonth_le y m
          _ < 10 ^ 2 := by norm_num) (by omega)
  obtain ⟨hAl, hAd, hAv⟩ := padZero_spec 4 (natChars y) hylen hyd
  obtain ⟨hBl, hBd, hBv⟩ := padZero_spec 2 (natChars m) hmlen hmd
  obtain ⟨hCl, hCd, hCv⟩ := padZero_spec 2 (natChars d) hdlen hdd
  have hyv' : digitsVal (natChars y) = y := hyv
  have hmv' : digitsVal (natChars m) = m := hmv
  have hdv' : digitsVal (natChars d) = d := hdv
  have hsplit : splitDash (renderYMD y m d) =
      [padZero 4 (natChars y), padZero 2 (natChars m),
        padZero 2 (natChars d)] := by
    unfold renderYMD
    rw [show padZero 4 (natChars y) ++ ['-'] ++ padZero 2 (natChars m) ++
        ['-'] ++ padZero 2 (natChars d) =
        padZero 4 (natChars y) ++ '-' ::
          (padZero 2 (natChars m) ++ '-' :: padZero 2 (natChars d)) from by
      simp [List.append_assoc]]
    rw [splitDash_append _ _ (not_dash_of_all_digits _ hAd),
      splitDash_append _ _ (not_dash_of_all_digits _ hBd),
      splitDash_no_dash _ (not_dash_of_all_digits _ hCd)]
  unfold strptimeYMD
  rw [hsplit]
  simp [hAl, hAd, hAv, hBl, hBd, hBv, hCl, hCd, hCv, hyv', hmv', hdv',
    hy1, hm1, hm2, hd1, hd2]

/-! ## Claim C8 -/

/-- C8 counterexample: `strptime`'s `%m`/`%d` accept one-digit months and
days, so `2024-1-15` — which does not strictly match `YYYY-MM-DD` and per
the claim must fail with `InvalidDate` — parses fine, and the entry
proceeds to a successful (dry-run) submission. -/
theorem c8_unpadded_date_counterexample :
    strptimeYMD (toL "2024-1-15") = some ⟨2024, 1, 15⟩ ∧
      strictYMDShape (toL "2024-1-15") = false ∧
      log_worklog cfg0 (toL "PROJ-123") (toL "4") (toL "2024-1-15") (toL "x")
          true today0 (.resp 201 []) = .ok (.success, [], false) := by
  exact ⟨by decide, by decide, by decide⟩

/-- C8 (amended): every strictly-`YYYY-MM-DD`-rendered real calendar date
parses to itself and its submission timestamp is
`YYYY-MM-DDT09:00:00.000+0000` (ISO-8601, millisecond precision, `+0000`
offset); a date string the (flexible: unpadded month/day also accepted)
parser rejects makes the entry fail with `InvalidDate`; and a parsed date
only controls the non-fatal warning flag — the result and the calls are
the same whatever the current date, with the flag set exactly when the
date is in the future. -/
theorem c8_date_normalization :
    (∀ y m d : ℕ, 1 ≤ y → y ≤ 9999 → 1 ≤ m → m ≤ 12 → 1 ≤ d →
      d ≤ daysInMonth y m →
      strptimeYMD (renderYMD y m d) = some ⟨y, m, d⟩ ∧
        isoStarted ⟨y, m, d⟩ = renderYMD y m d ++ toL "T09:00:00.000+0000") ∧
    (∀ (cfg : Config) (ticket hours date_str comment : List Char) (dr : Bool)
      (today : Date) (net : NetOutcome) (hf : PyFloat),
      validate_ticket_format (pyUpper (pyStrip ticket)) = true →
      validate_hours hours = .ok hf →
      strptimeYMD (pyStrip date_str) = none →
      log_worklog cfg ticket hours date_str comment dr today net =
        .ok (.failure .invalidDate, [], false)) ∧
    (∀ (cfg : Config) (ticket hours date_str comment : List Char) (dr : Bool)
      (net : NetOutcome) (hf : PyFloat) (dobj : Date),
      validate_ticket_format (pyUpper (pyStrip ticket)) = true →
      validate_hours hours = .ok hf →
      strptimeYMD (pyStrip date_str) = some dobj →
      ∃ res calls, ∀ today : Date,
        log_worklog cfg ticket hours date_str comment dr today net =
          .ok (res, calls, dateLt today dobj)) := by
  refine ⟨?_, ?_, ?_⟩
  · intro y m d hy1 hy2 hm1 hm2 hd1 hd2
    exact ⟨strptimeYMD_renderYMD y m d hy1 hy2 hm1 hm2 hd1 hd2, rfl⟩
  · intro cfg ticket hours date_str comment dr today net hf ht hh hd
    simp [log_worklog, ht, hh, hd]
  · intro cfg ticket hours date_str comment dr net hf dobj ht hh hd
    cases dr with
    | true =>
      exact ⟨.success, [], fun today => by simp [log_worklog, ht, hh, hd]⟩
    | false =>
      cases net with
      | resp code body =>
        by_cases hc : code = 201
        · exact ⟨.success,
            [⟨urlFor cfg (pyUpper (pyStrip ticket)),
              ⟨pyFloatRepr hf ++ ['h'], ⟨comment⟩, isoStarted dobj⟩,
              cfg.email, cfg.token⟩],
            fun today => by simp [log_worklog, ht, hh, hd, hc]⟩
        · exact ⟨.failure (.httpStatus code),
            [⟨urlFor cfg (pyUpper (pyStrip ticket)),
              ⟨pyFloatRepr hf ++ ['h'], ⟨comment⟩, isoStarted dobj⟩,
              cfg.email, cfg.token⟩],
            fun today => by simp [log_worklog, ht, hh, hd, hc]⟩
      | exn msg =>
        exact ⟨.failure .requestFailed,
          [⟨urlFor cfg (pyUpper (pyStrip ticket)),
            ⟨pyFloatRepr hf ++ ['h'], ⟨comment⟩, isoStarted dobj⟩,
            cfg.email, cfg.token⟩],
          fun today => by simp [log_worklog, ht, hh, hd]⟩

/-- C8 witness: the round trip at `2024-01-15`. -/
theorem c8_date_normalization_witness :
    strptimeYMD (renderYMD 2024 1 15) = some ⟨2024, 1, 15⟩ ∧
      isoStarted ⟨2024, 1, 15⟩ =
        renderYMD 2024 1 15 ++ toL "T09:00:00.000+0000" :=
  c8_date_normalization.1 2024 1 15 (by omega) (by omega) (by omega)
    (by omega) (by omega) (by decide)
